import Mathlib

/-!
# Verification of the frappe reactive dataflow core

Shallow embedding of the frappe FRP library (`src/lib.rs`, `src/signal.rs`):
event streams built over a callback registry, and pull-based signals.

The callback registry (`types::Callbacks`), the shared storage cell
(`types::Storage`), the `MaybeOwned` view and the helpers `rc_and_weak` /
`with_weak` live in modules (`types.rs`, `helpers.rs`) that are not part of
the available sources; they are modelled from the specification (§4.1, §4.2,
§3 of spec.md).  Everything else is translated from `lib.rs` / `signal.rs`.

Modelling conventions:
* A registered propagation closure `T -> bool` is represented by a Lean
  function returning the deliveries it makes plus the `keep` boolean
  (`true` = stay registered, `false` = prune on this pass).
* A `Weak` handle is represented by the boolean fact of whether it still
  upgrades (`alive`).  `Cow`/`MaybeOwned` views are represented by plain
  values: the spec states behavior must be value-equivalent whether the
  callback borrows or receives a clone.
* Interior mutability (`Cell`, `RwLock`, channel queues) is represented by
  explicit state threading.
-/

/-- Modelled from the spec (§4.1, `types.rs` not in sources): the Callback
Registry's `call` operation, generic over a defunctionalized closure type
`C` with interpretation `step`.  It walks the entries in registration
order, running each against the threaded state, and retains exactly the
entries that returned `true`; pruning is lazy (an entry is only dropped on
the pass in which it itself returns `false`). -/
def callbacksCall {C σ : Type} (step : C → σ → σ × Bool) :
    List C → σ → List C × σ
  | [], s => ([], s)
  | c :: cs, s =>
    let r := step c s
    let rest := callbacksCall step cs r.1
    (if r.2 then c :: rest.1 else rest.1, rest.2)

/-- Modelled from the spec (§4.2, `helpers.rs` not in sources): `with_weak`
upgrades the weak handle to the output registry; on success it runs the
supplied action and returns `true` (keep the subscription), otherwise it
returns `false` so the closure self-prunes. -/
def with_weak {σ : Type} (alive : Bool) (act : σ → σ) (s : σ) : σ × Bool :=
  if alive then (act s, true) else (s, false)

section StreamCombinators

variable {T U V R A : Type}

/-- The closure `Stream::filter` (lib.rs:85-93) registers on its input:
`with_weak(&weak, |cb| if pred(&arg) { cb.call_cow(arg) })`.
Given the liveness of the output registry and the event value, it returns
the list of values delivered to the output and the `keep` boolean. -/
def filterCb (pred : T → Bool) (alive : Bool) (v : T) : List T × Bool :=
  with_weak alive (fun out => if pred v then out ++ [v] else out) []

/-- The closure `Stream::filter_map` (lib.rs:96-105) registers on its input:
`with_weak(&weak, |cb| if let Some(val) = f(arg) { cb.call(val) })`. -/
def filter_mapCb (f : T → Option R) (alive : Bool) (v : T) : List R × Bool :=
  with_weak alive
    (fun out => match f v with
      | some val => out ++ [val]
      | none => out) []

/-- `Stream::map` (lib.rs:77-82) is defined in the source as
`self.filter_map(move |arg| Some(f(arg)))`. -/
def mapCb (f : T → R) : Bool → T → List R × Bool :=
  filter_mapCb (fun v => some (f v))

/-- Synchronous propagation of one send through the chain
`sink → filter_map g → filter_map h`: the first stage's closure runs on
`v`; each value it delivers is handed, within the same call, to the second
stage's closure.  The trace records every delivery in the order it
happens (`Sum.inl` = delivery to the first stage's output, `Sum.inr` = to
the second stage's). -/
def chain2Trace (g : T → Option U) (h : U → Option V) (v : T) :
    List (U ⊕ V) :=
  (filter_mapCb g true v).1.flatMap
    (fun u => Sum.inl u :: ((filter_mapCb h true u).1.map Sum.inr))

/-- The single shared closure of `Stream::split` (lib.rs:246-262), with the
sum-type capability (spec §1) concretized as `Sum`.  `alive1`/`alive2` are
the results of upgrading the weak handles of the two output registries at
the moment the event arrives; the result lists are the deliveries to the
first and second output. -/
def splitCb : T ⊕ U → Bool → Bool → List T × List U × Bool
  | Sum.inl a, true, _ => ([a], [], true)
  | Sum.inr b, _, true => ([], [b], true)
  | _, false, false => ([], [], false)
  | _, _, _ => ([], [], true)

/-- The closure `Stream::hold_if` (lib.rs:167-179) registers on its input:
upgrade the weak storage handle; if gone return `false`; otherwise
overwrite the storage with the event iff `pred` holds.  `st` is the
storage content before the event, the result is the content after plus
the `keep` boolean. -/
def hold_ifCb (pred : T → Bool) (alive : Bool) (st : T) (v : T) :
    T × Bool :=
  if alive then ((if pred v then v else st), true) else (st, false)

/-- `Stream::hold` (lib.rs:161-164) is `self.hold_if(initial, |_| true)`. -/
def holdCb : Bool → T → T → T × Bool :=
  hold_ifCb (fun _ => true)

/-- The closure `Stream::fold` (lib.rs:182-200) registers on its input:
upgrade the weak storage handle; if gone return `false`; otherwise replace
the accumulator by `f(old, event)` (the `ptr::read`/`ptr::write` pair is a
move-in-place; its net effect on the storage is this update). -/
def foldCb (f : A → T → A) (alive : Bool) (st : A) (v : T) : A × Bool :=
  if alive then (f st v, true) else (st, false)

/-- Storage content after the live subscription of `fold` has processed the
event sequence `evs` starting from `initial`. -/
def foldRun (f : A → T → A) (initial : A) (evs : List T) : A :=
  evs.foldl (fun acc v => (foldCb f true acc v).1) initial

/-- Storage content after the live subscription of `hold_if` has processed
the event sequence `evs` starting from `initial`. -/
def hold_ifRun (pred : T → Bool) (initial : T) (evs : List T) : T :=
  evs.foldl (fun acc v => (hold_ifCb pred true acc v).1) initial

/-- Storage content after the live subscription of `hold` has processed the
event sequence `evs` starting from `initial`. -/
def holdRun (initial : T) (evs : List T) : T :=
  evs.foldl (fun acc v => (holdCb true acc v).1) initial

/-- `SignalShared::sample` (lib.rs:390-393) clones the current storage
content. -/
def sampleShared (storage : A) : A := storage

end StreamCombinators

section Merge

variable {T : Type}

/-- Each of the two closures `Stream::merge` (lib.rs:108-119) registers —
one on each input — is `with_weak(&weak_i, |cb| cb.call_cow(arg))`: if the
shared output registry is still alive, forward the value unchanged and
stay; otherwise self-prune. -/
def mergeCb (alive : Bool) (v : T) : List T × Bool :=
  with_weak alive (fun out => out ++ [v]) []

/-- State of a `merge(a, b)` node: whether the output registry is still
reachable, whether each input's closure is still registered on that
input's registry, and the ordered log of events delivered to the output. -/
structure MergeState (T : Type) where
  outAlive : Bool
  keptA : Bool
  keptB : Bool
  log : List T

/-- Events observable at a merge node: a send on input `a` (`onA = true`)
or on input `b`, or the drop of the last reference to the merged output. -/
inductive MergeEv (T : Type) where
  | send (onA : Bool) (v : T)
  | dropOut

/-- One step of the merge node.  A send on a side whose closure was already
pruned does nothing; otherwise the side's closure runs and its `keep`
result updates registration (lazy pruning).  `dropOut` makes the weak
handles stop upgrading. -/
def mergeStep (st : MergeState T) : MergeEv T → MergeState T
  | MergeEv.send true v =>
    if st.keptA then
      let r := mergeCb st.outAlive v
      { st with log := st.log ++ r.1, keptA := r.2 }
    else st
  | MergeEv.send false v =>
    if st.keptB then
      let r := mergeCb st.outAlive v
      { st with log := st.log ++ r.1, keptB := r.2 }
    else st
  | MergeEv.dropOut => { st with outAlive := false }

/-- Run a merge node over a sequence of events. -/
def mergeRun (st : MergeState T) (evs : List (MergeEv T)) : MergeState T :=
  evs.foldl mergeStep st

/-- The state right after `merge(a, b)` returns: output alive, both
closures registered, nothing delivered yet. -/
def initMerge (T : Type) : MergeState T :=
  { outAlive := true, keptA := true, keptB := true, log := [] }

/-- Interleaved sends encoded as (side, value) pairs. -/
def sendsOf (vs : List (Bool × T)) : List (MergeEv T) :=
  vs.map (fun p => MergeEv.send p.1 p.2)

end Merge

section Channel

variable {T : Type}

/-- The closure `Stream::channel` (lib.rs:151-158) registers:
`tx.send(arg.into_owned()).is_ok()`.  The mpsc channel (an out-of-scope
collaborator, spec §1: unbounded FIFO) succeeds exactly while the
`Receiver` is alive; on success the owned copy is appended to the FIFO. -/
def channelCb (recvAlive : Bool) (queue : List T) (v : T) :
    List T × Bool :=
  if recvAlive then (queue ++ [v], true) else (queue, false)

/-- State of a `channel()` subscription: whether the `Receiver` end still
exists, the FIFO contents, and whether the closure is still registered on
the input stream's registry. -/
structure ChanState (T : Type) where
  recvAlive : Bool
  queue : List T
  registered : Bool

/-- One event delivered to the input stream: if the channel closure is
still registered it runs (appending on success) and its `keep` result
updates registration; if it was already pruned, nothing happens. -/
def chanStep (st : ChanState T) (v : T) : ChanState T :=
  if st.registered then
    let r := channelCb st.recvAlive st.queue v
    { st with queue := r.1, registered := r.2 }
  else st

/-- Run the channel subscription over a sequence of events. -/
def chanRun (st : ChanState T) (evs : List T) : ChanState T :=
  evs.foldl chanStep st

/-- The state right after `channel()` returns. -/
def initChan (T : Type) : ChanState T :=
  { recvAlive := true, queue := [], registered := true }

/-- Dropping the `Receiver`: subsequent `tx.send` calls fail. -/
def dropReceiver (st : ChanState T) : ChanState T :=
  { st with recvAlive := false }

end Channel

section Switch

variable {T : Type}

/-- State of a `Stream::<Stream<T>>::switch` node (lib.rs:268-287).  Inner
streams are identified by an index `j`.  `curId` is the shared
`Rc<Cell<u64>>` generation counter; `outAlive` is whether the output
registry's weak handle still upgrades; `outerKept` is whether the closure
registered on the outer stream is still there; `regs j` is the ordered
list of switch subscriptions currently registered on inner stream `j`,
each represented by its captured `my_id`; `log` is the ordered list of
events delivered to the switch output. -/
structure SwitchState (T : Type) where
  curId : Nat
  outAlive : Bool
  outerKept : Bool
  regs : Nat → List Nat
  log : List T

/-- The closure registered on the outer stream (lib.rs:272-285), receiving
inner stream `j`: if the output is dead, return `false`; otherwise set
`my_id = id.get() + 1`, store it in the shared cell, and push a new
closure capturing `my_id` onto stream `j`'s registry. -/
def switchOuterCb (s : SwitchState T) (j : Nat) : SwitchState T × Bool :=
  if s.outAlive = false then (s, false)
  else
    let myId := s.curId + 1
    ({ s with
        curId := myId
        regs := fun k => if k = j then s.regs j ++ [myId] else s.regs k },
      true)

/-- The closure pushed onto an inner stream's registry (lib.rs:280-283):
`if my_id != cur_id.get() { return false }` then
`with_weak(&cbs_w, |cb| cb.call_cow(arg))`. -/
def switchInnerCb (v : T) (myId : Nat) (s : SwitchState T) :
    SwitchState T × Bool :=
  if myId ≠ s.curId then (s, false)
  else
    let r := with_weak s.outAlive (fun l => l ++ [v]) s.log
    ({ s with log := r.1 }, r.2)

/-- The outer stream fires, delivering inner stream `j` to the switch
closure (if that closure is still registered). -/
def fireOuter (s : SwitchState T) (j : Nat) : SwitchState T :=
  if s.outerKept then
    let r := switchOuterCb s j
    { r.1 with outerKept := r.2 }
  else s

/-- Inner stream `j` fires event `v`: its registry (which holds the switch
subscriptions) is walked in order, with lazy pruning. -/
def fireInner (s : SwitchState T) (j : Nat) (v : T) : SwitchState T :=
  let r := callbacksCall (switchInnerCb v) (s.regs j) s
  { r.2 with regs := fun k => if k = j then r.1 else r.2.regs k }

/-- Events at a switch node: the outer stream delivers inner stream `j`,
or inner stream `j` fires value `v`. -/
inductive SwEv (T : Type) where
  | outer (j : Nat)
  | inner (j : Nat) (v : T)

/-- One step of the switch node. -/
def swStep (s : SwitchState T) : SwEv T → SwitchState T
  | SwEv.outer j => fireOuter s j
  | SwEv.inner j v => fireInner s j v

/-- Run a switch node over a sequence of events. -/
def swRun (s : SwitchState T) (evs : List (SwEv T)) : SwitchState T :=
  evs.foldl swStep s

/-- The state right after `switch()` returns: counter at 0, output alive,
outer closure registered, no inner subscriptions. -/
def initSwitch (T : Type) : SwitchState T :=
  { curId := 0, outAlive := true, outerKept := true
    regs := fun _ => [], log := [] }

/-- Switch-node invariant: every registered inner subscription's captured
id is at most the shared counter, each inner registry has no duplicate
ids, and no id is registered on two distinct inner streams. -/
def SwInv (s : SwitchState T) : Prop :=
  (∀ j i, i ∈ s.regs j → i ≤ s.curId) ∧
  (∀ j, (s.regs j).Nodup) ∧
  (∀ j k i, i ∈ s.regs j → i ∈ s.regs k → j = k)

end Switch

/-- The `Signal` enum (signal.rs:14-30), over an explicit environment type
`E` that stands for all interior-mutable state a signal's closures can
reach (channel queues, `Cell`s, `Storage` contents).
* `constant` holds an immutable value (`Rc<T>`).
* `dynamic` holds `Rc<Fn() -> T>`; the function may read and mutate the
  environment, so it is `E → T × E`.
* `shared` holds `Rc<Fn() -> Rc<Storage<T>>>`: invoking the closure may
  mutate the environment (`touch`, e.g. a channel drain) and the returned
  storage handle's current content is then read from the resulting
  environment (`read`).  `Storage` (`types.rs`, not in sources) is
  modelled from the spec (§3) as a single value cell with get/set/take.
* `nested` holds `Rc<Fn() -> Signal<T>>`: one invocation both picks the
  inner signal (as a function of the pre-state) and transitions the
  environment. -/
inductive Signal (E : Type u) (T : Type v) where
  | constant : T → Signal E T
  | dynamic : (E → T × E) → Signal E T
  | shared : (E → E) → (E → T) → Signal E T
  | nested : (E → Signal E T) → (E → E) → Signal E T

namespace Signal

variable {E : Type u} {T : Type v} {R : Type w}

/-- `Signal::sample` (signal.rs:69-78): Constant clones the value, Dynamic
calls the function, Shared calls the closure then `get`s the returned
storage, Nested calls the closure then samples the inner signal. -/
def sample : Signal E T → E → T × E
  | constant v, e => (v, e)
  | dynamic f, e => f e
  | shared touch read, e => (read (touch e), touch e)
  | nested f g, e => sample (f e) (g e)

/-- `Signal::sample_with` (signal.rs:51-61): like `sample` but hands the
observed value to the callback `cb` and returns the callback's result
(Constant/Shared pass a borrowed view, Dynamic an owned one; views are
value-equivalent in this model). -/
def sample_with : Signal E T → (T → R) → E → R × E
  | constant v, cb, e => (cb v, e)
  | dynamic f, cb, e => (cb (f e).1, (f e).2)
  | shared touch read, cb, e => (cb (read (touch e)), touch e)
  | nested f g, cb, e => sample_with (f e) cb (g e)

/-- `Signal::map` (signal.rs:84-90): `Signal::from_fn(move ||
this.sample_with(&f))`, i.e. a Dynamic signal. -/
def map (s : Signal E T) (f : T → R) : Signal E R :=
  dynamic (fun e => sample_with s f e)

/-- `Signal::<Signal<T>>::switch` (signal.rs:146-150):
`Signal::Nested(Rc::new(move || this.sample()))` — one call to the stored
closure samples the outer signal, yielding the inner signal and the new
environment. -/
def switch (ss : Signal E (Signal E T)) : Signal E T :=
  nested (fun e => (sample ss e).1) (fun e => (sample ss e).2)

/-- Recognizer for the Dynamic variant. -/
def isDynamic : Signal E T → Bool
  | dynamic _ => true
  | _ => false

/-- Recognizer for the Nested variant. -/
def isNested : Signal E T → Bool
  | nested _ _ => true
  | _ => false

end Signal

section ChannelSignals

variable {T V : Type}

/-- Environment of a channel-fed signal: the `Storage` content and the
queue of items currently in the channel (oldest first). -/
def ChanEnv (T V : Type) : Type := T × List V

/-- `Signal::from_channel` (signal.rs:114-122): a Shared signal whose
closure drains the channel (`rx.try_iter().last()`), stores the last
drained item if any, and returns the storage handle.  The `initial`
argument is the starting storage content of the environment. -/
def from_channel (T : Type) : Signal (ChanEnv T T) T :=
  Signal.shared
    (fun e => (e.2.getLast?.getD e.1, []))
    (fun e => e.1)

/-- `Signal::fold_channel` (signal.rs:129-140): a Shared signal whose
closure takes the accumulator out of storage, left-folds every currently
queued item onto it (`rx.try_iter().fold(acc, &f)`), stores the result and
returns the storage handle. -/
def fold_channel (f : T → V → T) : Signal (ChanEnv T V) T :=
  Signal.shared
    (fun e => (e.2.foldl f e.1, []))
    (fun e => e.1)

end ChannelSignals

section Snapshot

variable {E : Type} {T S R : Type}

/-- The closure `Signal::snapshot` (signal.rs:93-99) registers on the
trigger stream — `trigger.map(move |b| this.sample_with(|a| f(a, b)))`,
i.e. `Stream::map`'s closure whose payload function samples the signal at
the moment the trigger event is processed.  Returns the new environment,
the deliveries to the output stream, and the `keep` boolean. -/
def snapshotCb (sig : Signal E T) (f : T → S → R) (alive : Bool) (ev : S)
    (e : E) : E × List R × Bool :=
  if alive then
    let r := Signal.sample_with sig (fun a => f a ev) e
    (r.2, [r.1], true)
  else (e, [], false)

/-- Observable state of a snapshot scenario: the environment holding the
signal's mutable state, and the log of output events already produced. -/
structure SnapState (E R : Type) where
  env : E
  out : List R

/-- Processing one trigger event through a live snapshot subscription. -/
def snapshotFire (sig : Signal E T) (f : T → S → R) (st : SnapState E R)
    (ev : S) : SnapState E R :=
  let r := snapshotCb sig f true ev st.env
  { env := r.1, out := st.out ++ r.2.1 }

/-- An arbitrary later mutation of the signal's underlying state. -/
def mutateEnv (m : E → E) (st : SnapState E R) : SnapState E R :=
  { st with env := m st.env }

end Snapshot

/-! ## Helper lemmas -/

lemma getLastD_cons {T : Type} (l : List T) :
    ∀ (v init : T), ((v :: l).getLast?).getD init = (l.getLast?).getD v := by
  induction l with
  | nil => intro v init; rfl
  | cons w ws ih =>
    intro v init
    rw [List.getLast?_cons_cons, ih w init, ih w v]

lemma hold_ifRun_eq {T : Type} (pred : T → Bool) (evs : List T) :
    ∀ init, hold_ifRun pred init evs = ((evs.filter pred).getLast?).getD init := by
  induction evs with
  | nil => intro init; rfl
  | cons v rest ih =>
    intro init
    simp only [hold_ifRun, List.foldl_cons, hold_ifCb, if_true]
    by_cases h : pred v
    · simp only [h, if_true, List.filter_cons, getLastD_cons]
      exact ih v
    · simp only [h, if_false, List.filter_cons, Bool.false_eq_true]
      exact ih init

lemma foldCb_fun {A T : Type} (f : A → T → A) :
    (fun acc v => (foldCb f true acc v).1) = f := by
  funext a v
  simp [foldCb]

lemma foldRun_eq {A T : Type} (f : A → T → A) (initial : A) (evs : List T) :
    foldRun f initial evs = evs.foldl f initial := by
  rw [foldRun, foldCb_fun]

lemma sample_with_nat {E : Type u} {T : Type v} {R : Type w}
    (s : Signal E T) : ∀ (cb : T → R) (e : E),
    Signal.sample_with s cb e =
      (cb (Signal.sample s e).1, (Signal.sample s e).2) := by
  induction s with
  | constant v => intro cb e; rfl
  | dynamic f => intro cb e; rfl
  | shared touch read => intro cb e; rfl
  | nested f g ih => intro cb e; exact ih e cb (g e)

/-! ## Claim theorems -/

/-- C2: for `split` on a two-variant stream, the single shared input
closure returns `false` (self-prunes) iff both output registries are dead
at the moment an event arrives; with exactly one output dropped the
closure returns `true`, events of the surviving output's variant are still
delivered to it, and events of the dropped output's variant are silently
discarded. -/
theorem split_asymmetric_liveness {T U : Type} :
    (∀ (v : T ⊕ U) (a1 a2 : Bool),
      ((splitCb v a1 a2).2.2 = false ↔ (a1 = false ∧ a2 = false))) ∧
    (∀ (a : T) (b : U),
      @splitCb T U (Sum.inl a) true false = ([a], [], true) ∧
      @splitCb T U (Sum.inr b) true false = ([], [], true) ∧
      @splitCb T U (Sum.inr b) false true = ([], [b], true) ∧
      @splitCb T U (Sum.inl a) false true = ([], [], true)) := by
  constructor
  · intro v a1 a2
    rcases v with a | b <;> cases a1 <;> cases a2 <;> simp [splitCb]
  · intro a b
    refine ⟨rfl, rfl, rfl, rfl⟩

/-- C3: while the derived streams are alive, `map(f)` delivers exactly one
event `f v` per send, `filter(pred)` delivers `v` exactly once iff
`pred v` and nothing otherwise, `filter_map(g)` delivers `r` exactly once
iff `g v = some r` and nothing if `g v = none`; and within one synchronous
send through a two-stage chain, deliveries happen in combinator-chain
order (every first-stage delivery precedes the second-stage deliveries it
causes). -/
theorem map_filter_filter_map_delivery {T U V R : Type} :
    (∀ (f : T → R) (v : T), mapCb f true v = ([f v], true)) ∧
    (∀ (pred : T → Bool) (v : T),
      filterCb pred true v = ((if pred v then [v] else []), true)) ∧
    (∀ (g : T → Option R) (v : T),
      filter_mapCb g true v = ((g v).toList, true)) ∧
    (∀ (g : T → Option U) (h : U → Option V) (v : T),
      chain2Trace g h v =
        ((g v).toList.map Sum.inl) ++ (((g v).bind h).toList.map Sum.inr)) := by
  refine ⟨?_, ?_, ?_, ?_⟩
  · intro f v; rfl
  · intro pred v; rfl
  · intro g v
    cases hg : g v <;> simp [filter_mapCb, with_weak, hg]
  · intro g h v
    cases hg : g v with
    | none => simp [chain2Trace, filter_mapCb, with_weak, hg]
    | some u =>
      cases hh : h u <;>
        simp [chain2Trace, filter_mapCb, with_weak, hg, hh]

/-- C5: after the event sequence `evs` is sent, sampling the signal
returned by `fold(initial, f)` yields the left fold of `f` over `evs`
(concretely `fold 0 (+)` over `[1,2,3]` samples to `6`); sampling the
signal returned by `hold(initial)` yields the last event sent, or
`initial` if none (concretely `hold 0` over `[5,9]` samples to `9`); and
`hold_if(initial, pred)`'s storage is overwritten exactly by the events
satisfying `pred` and left unchanged by the others. -/
theorem fold_hold_semantics {A T : Type} :
    (∀ (f : A → T → A) (initial : A) (evs : List T),
      sampleShared (foldRun f initial evs) = evs.foldl f initial) ∧
    (∀ (initial : T) (evs : List T),
      sampleShared (holdRun initial evs) = (evs.getLast?).getD initial) ∧
    (∀ (pred : T → Bool) (initial : T) (evs : List T),
      sampleShared (hold_ifRun pred initial evs) =
        ((evs.filter pred).getLast?).getD initial) ∧
    (∀ (pred : T → Bool) (st v : T),
      (hold_ifCb pred true st v).1 = if pred v then v else st) ∧
    sampleShared (foldRun (fun a x => a + x) (0 : Nat) [1, 2, 3]) = 6 ∧
    sampleShared (holdRun (0 : Nat) [5, 9]) = 9 := by
  refine ⟨?_, ?_, ?_, ?_, ?_, ?_⟩
  · intro f initial evs
    exact foldRun_eq f initial evs
  · intro initial evs
    have h := hold_ifRun_eq (T := T) (fun _ => true) evs initial
    simpa [holdRun, hold_ifRun, holdCb, List.filter_true] using h
  · intro pred initial evs
    exact hold_ifRun_eq pred evs initial
  · intro pred st v; rfl
  · rfl
  · rfl

/-- C6: sampling `from_channel`/`fold_channel` drains all currently queued
items non-blockingly; `from_channel` then holds the last queued item (or
the previous value if the queue was empty), `fold_channel` the left fold
of `f` over the queued items starting from the stored accumulator.  With
queue `[1,2,3]` a first sample of `from_channel` returns `3` and of
`fold_channel` with `+` returns `initial+1+2+3`, and an immediately
following sample with no new items returns the same value. -/
theorem channel_signal_sampling :
    (∀ (T : Type) (initial : T) (q : List T),
      (Signal.sample (from_channel T) (initial, q)).1 =
        (q.getLast?).getD initial ∧
      (Signal.sample (from_channel T) (initial, q)).2 =
        ((q.getLast?).getD initial, []) ∧
      Signal.sample (from_channel T)
          (Signal.sample (from_channel T) (initial, q)).2 =
        ((q.getLast?).getD initial,
          ((q.getLast?).getD initial, []))) ∧
    (∀ (T V : Type) (f : T → V → T) (initial : T) (q : List V),
      (Signal.sample (fold_channel f) (initial, q)).1 = q.foldl f initial ∧
      (Signal.sample (fold_channel f) (initial, q)).2 =
        (q.foldl f initial, []) ∧
      Signal.sample (fold_channel f)
          (Signal.sample (fold_channel f) (initial, q)).2 =
        (q.foldl f initial, (q.foldl f initial, []))) ∧
    (Signal.sample (from_channel Nat) (0, [1, 2, 3])).1 = 3 ∧
    (Signal.sample (fold_channel (fun a b => a + b))
      ((10 : Nat), [1, 2, 3])).1 = 16 := by
  refine ⟨?_, ?_, rfl, rfl⟩
  · intro T initial q
    refine ⟨rfl, rfl, rfl⟩
  · intro T V f initial q
    refine ⟨rfl, rfl, rfl⟩

/-- C7: every event fired on the trigger stream of
`signal.snapshot(trigger, f)` produces exactly one output event
`f v e` where `v` is the signal's value sampled at the moment the trigger
event is processed; a mutation of the signal's underlying state performed
after that event was processed does not alter the already-produced output;
a dead output registry means no delivery and self-pruning.  Concretely, a
signal holding `10` with a trigger firing `()` outputs `f 10 ()`. -/
theorem snapshot_captures_at_fire {E T S R : Type} :
    (∀ (sig : Signal E T) (f : T → S → R) (st : SnapState E R) (ev : S)
        (m : E → E),
      (snapshotFire sig f st ev).out =
        st.out ++ [f (Signal.sample sig st.env).1 ev] ∧
      (mutateEnv m (snapshotFire sig f st ev)).out =
        st.out ++ [f (Signal.sample sig st.env).1 ev] ∧
      (snapshotFire sig f st ev).env = (Signal.sample sig st.env).2) ∧
    (∀ (e : E) (sig : Signal E T) (f : T → S → R) (ev : S),
      snapshotCb sig f false ev e = (e, [], false)) ∧
    (∀ (f0 : Nat → Unit → R),
      (snapshotFire (Signal.shared id (fun e => e)) f0
        { env := 10, out := [] } ()).out = [f0 10 ()]) := by
  refine ⟨?_, ?_, ?_⟩
  · intro sig f st ev m
    refine ⟨?_, ?_, ?_⟩ <;>
      simp [snapshotFire, snapshotCb, mutateEnv, sample_with_nat]
  · intro e sig f ev; rfl
  · intro f0; rfl

/-- C8: `Signal::map(f)` returns a Dynamic signal whose every sample
re-samples the source and re-applies `f`, with no caching: at every
environment, sampling the mapped signal yields `f` of the source's sample
at that instant (a counting source shows two successive samples evaluate
freshly and differ when the source changed).  `Signal::switch` returns a
Nested signal whose every sample flattens one level: its sample equals the
sample of the outer signal's currently sampled inner signal. -/
theorem signal_map_switch_fresh {E : Type u} {T : Type v} {R : Type w} :
    (∀ (s : Signal E T) (f : T → R),
      Signal.isDynamic (Signal.map s f) = true ∧
      ∀ (e : E), Signal.sample (Signal.map s f) e =
        (f (Signal.sample s e).1, (Signal.sample s e).2)) ∧
    (∀ (ss : Signal E (Signal E T)),
      Signal.isNested (Signal.switch ss) = true ∧
      ∀ (e : E), Signal.sample (Signal.switch ss) e =
        Signal.sample (Signal.sample ss e).1 (Signal.sample ss e).2) ∧
    (Signal.sample
        (Signal.map (Signal.dynamic (fun n => (n, n + 1)))
          (fun x => x * 2)) 0 = ((0 : Nat), 1) ∧
      Signal.sample
        (Signal.map (Signal.dynamic (fun n => (n, n + 1)))
          (fun x => x * 2))
        (Signal.sample
          (Signal.map (Signal.dynamic (fun n : Nat => (n, n + 1)))
            (fun x => x * 2)) 0).2 = (2, 2)) := by
  refine ⟨?_, ?_, rfl, rfl⟩
  · intro s f
    refine ⟨rfl, ?_⟩
    intro e
    exact sample_with_nat s f e
  · intro ss
    exact ⟨rfl, fun e => rfl⟩

/-- C10: for every Signal variant, the two observation operations agree:
`sample_with cb` applied at a given state returns exactly `cb` of what
`sample` observes at that same state, with the same resulting state (so
`cb` is invoked once, on the sampled value, for any result type); in
particular a Constant signal observes the same value at every state. -/
theorem sample_with_agrees_sample {E : Type u} {T : Type v} {R : Type w} :
    (∀ (s : Signal E T) (cb : T → R) (e : E),
      Signal.sample_with s cb e =
        (cb (Signal.sample s e).1, (Signal.sample s e).2)) ∧
    (∀ (v : T) (e : E), Signal.sample (Signal.constant v) e = (v, e)) ∧
    (∀ (v : T) (cb : T → R) (e : E),
      Signal.sample_with (Signal.constant v) cb e = (cb v, e)) :=
  ⟨fun s cb e => sample_with_nat s cb e,
    fun _ _ => rfl, fun _ _ _ => rfl⟩

lemma mergeRun_live {T : Type} (vs : List (Bool × T)) :
    ∀ st : MergeState T, st.outAlive = true → st.keptA = true →
      st.keptB = true →
    (mergeRun st (sendsOf vs)).log = st.log ++ vs.map (fun p => p.2) ∧
    (mergeRun st (sendsOf vs)).keptA = true ∧
    (mergeRun st (sendsOf vs)).keptB = true ∧
    (mergeRun st (sendsOf vs)).outAlive = true := by
  induction vs with
  | nil =>
    intro st h1 h2 h3
    exact ⟨by simp [mergeRun, sendsOf], h2, h3, h1⟩
  | cons p rest ih =>
    intro st h1 h2 h3
    obtain ⟨oa, ka, kb, lg⟩ := st
    obtain ⟨side, v⟩ := p
    cases h1; cases h2; cases h3
    cases side <;>
    · have h := ih ⟨true, true, true, lg ++ [v]⟩ rfl rfl rfl
      simpa [mergeRun, sendsOf, mergeStep, mergeCb, with_weak,
        List.append_assoc] using h

lemma mergeRun_dead {T : Type} (vs : List (Bool × T)) :
    ∀ st : MergeState T, st.outAlive = false →
    (mergeRun st (sendsOf vs)).log = st.log ∧
    (mergeRun st (sendsOf vs)).keptA
      = (st.keptA && !(vs.any (fun p => p.1))) ∧
    (mergeRun st (sendsOf vs)).keptB
      = (st.keptB && !(vs.any (fun p => !p.1))) ∧
    (mergeRun st (sendsOf vs)).outAlive = false := by
  induction vs with
  | nil =>
    intro st h1
    exact ⟨rfl, by simp [mergeRun, sendsOf], by simp [mergeRun, sendsOf], h1⟩
  | cons p rest ih =>
    intro st h1
    obtain ⟨oa, ka, kb, lg⟩ := st
    obtain ⟨side, v⟩ := p
    cases h1
    cases side <;> cases ka <;> cases kb <;>
    · first
      | (have h := ih ⟨false, false, false, lg⟩ rfl
         simpa [mergeRun, sendsOf, mergeStep, mergeCb, with_weak] using h)
      | (have h := ih ⟨false, false, true, lg⟩ rfl
         simpa [mergeRun, sendsOf, mergeStep, mergeCb, with_weak] using h)
      | (have h := ih ⟨false, true, false, lg⟩ rfl
         simpa [mergeRun, sendsOf, mergeStep, mergeCb, with_weak] using h)

lemma chanRun_live {T : Type} (evs : List T) :
    ∀ st : ChanState T, st.recvAlive = true → st.registered = true →
    (chanRun st evs).queue = st.queue ++ evs ∧
    (chanRun st evs).registered = true ∧
    (chanRun st evs).recvAlive = true := by
  induction evs with
  | nil => intro st h1 h2; exact ⟨by simp [chanRun], h2, h1⟩
  | cons v vs ih =>
    intro st h1 h2
    obtain ⟨ra, q, rg⟩ := st
    cases h1; cases h2
    have h := ih ⟨true, q ++ [v], true⟩ rfl rfl
    simpa [chanRun, chanStep, channelCb, List.append_assoc] using h

lemma chanRun_dead {T : Type} (evs : List T) :
    ∀ st : ChanState T, st.recvAlive = false →
    (chanRun st evs).queue = st.queue ∧
    (chanRun st evs).registered = (st.registered && evs.isEmpty) ∧
    (chanRun st evs).recvAlive = false := by
  induction evs with
  | nil => intro st h1; exact ⟨rfl, by simp [chanRun], h1⟩
  | cons v vs ih =>
    intro st h1
    obtain ⟨ra, q, rg⟩ := st
    cases h1
    cases rg <;>
    · have h := ih ⟨false, q, false⟩ rfl
      simpa [chanRun, chanStep, channelCb] using h

/-- C4: while the merged stream is reachable, every event sent on either
input of `merge(a, b)` (alone or interleaved) produces exactly one event
on the merged output, in send order, value unchanged; once the merged
output is dropped with no other downstream reference, no further events
from either input are delivered, and each input's closure independently
self-prunes on its next event. -/
theorem merge_exact_delivery {T : Type} :
    (∀ (vs : List (Bool × T)),
      (mergeRun (initMerge T) (sendsOf vs)).log = vs.map (fun p => p.2) ∧
      (mergeRun (initMerge T) (sendsOf vs)).keptA = true ∧
      (mergeRun (initMerge T) (sendsOf vs)).keptB = true) ∧
    (∀ (vs vs2 : List (Bool × T)),
      (mergeRun (initMerge T)
        (sendsOf vs ++ MergeEv.dropOut :: sendsOf vs2)).log
          = vs.map (fun p => p.2) ∧
      (mergeRun (initMerge T)
        (sendsOf vs ++ MergeEv.dropOut :: sendsOf vs2)).keptA
          = !(vs2.any (fun p => p.1)) ∧
      (mergeRun (initMerge T)
        (sendsOf vs ++ MergeEv.dropOut :: sendsOf vs2)).keptB
          = !(vs2.any (fun p => !p.1))) := by
  constructor
  · intro vs
    have h := mergeRun_live vs (initMerge T) rfl rfl rfl
    exact ⟨by simpa [initMerge] using h.1, h.2.1, h.2.2.1⟩
  · intro vs vs2
    have hsplit :
        mergeRun (initMerge T) (sendsOf vs ++ MergeEv.dropOut :: sendsOf vs2)
          = mergeRun
              (mergeStep (mergeRun (initMerge T) (sendsOf vs)) MergeEv.dropOut)
              (sendsOf vs2) := by
      simp [mergeRun, List.foldl_append]
    have hlive := mergeRun_live vs (initMerge T) rfl rfl rfl
    have hdropA : (mergeStep (mergeRun (initMerge T) (sendsOf vs))
        MergeEv.dropOut).outAlive = false := by
      simp [mergeStep]
    have hdead := mergeRun_dead vs2 _ hdropA
    refine ⟨?_, ?_, ?_⟩
    · rw [hsplit]
      rw [hdead.1]
      simpa [mergeStep, initMerge] using hlive.1
    · rw [hsplit, hdead.2.1]
      simp [mergeStep, hlive.2.1]
    · rw [hsplit, hdead.2.2.1]
      simp [mergeStep, hlive.2.2.1]

/-- C9: for `Stream::channel`, every event sent while the `Receiver` is
alive is pushed onto the FIFO as an owned copy, in send order; once the
`Receiver` is dropped, the subscription's callback returns `false` on the
very next event (the channel send fails) and is removed from the
registry, so no further copies are made for subsequent events. -/
theorem channel_lazy_unsubscribe {T : Type} :
    (∀ (sends : List T),
      (chanRun (initChan T) sends).queue = sends ∧
      (chanRun (initChan T) sends).registered = true) ∧
    (∀ (sends : List T) (v : T) (vs : List T),
      (chanStep (dropReceiver (chanRun (initChan T) sends)) v).queue
        = sends ∧
      (chanStep (dropReceiver (chanRun (initChan T) sends)) v).registered
        = false ∧
      (chanRun (dropReceiver (chanRun (initChan T) sends)) (v :: vs)).queue
        = sends ∧
      (chanRun (dropReceiver (chanRun (initChan T) sends))
          (v :: vs)).registered = false) := by
  have hlive := fun sends : List T => chanRun_live sends (initChan T) rfl rfl
  constructor
  · intro sends
    exact ⟨by simpa [initChan] using (hlive sends).1, (hlive sends).2.1⟩
  · intro sends v vs
    have hq : (chanRun (initChan T) sends).queue = sends := by
      simpa [initChan] using (hlive sends).1
    have hda : (dropReceiver (chanRun (initChan T) sends)).recvAlive
        = false := rfl
    have hdead := chanRun_dead (v :: vs) _ hda
    have hstep1 : (chanStep (dropReceiver (chanRun (initChan T) sends)) v)
        = chanRun (dropReceiver (chanRun (initChan T) sends)) [v] := rfl
    have hdead1 := chanRun_dead [v] _ hda
    refine ⟨?_, ?_, ?_, ?_⟩
    · rw [hstep1, hdead1.1]
      simpa [dropReceiver] using hq
    · rw [hstep1, hdead1.2.1]
      simp [dropReceiver, (hlive sends).2.1]
    · rw [hdead.1]
      simpa [dropReceiver] using hq
    · rw [hdead.2.1]
      simp [dropReceiver, (hlive sends).2.1]

lemma callbacksCall_sublist {C σ : Type} (step : C → σ → σ × Bool) :
    ∀ (cs : List C) (s : σ), ((callbacksCall step cs s).1).Sublist cs := by
  intro cs
  induction cs with
  | nil => intro s; simp [callbacksCall]
  | cons c cs ih =>
    intro s
    cases hr : (step c s).2 <;>
      simp only [callbacksCall, hr, if_true, if_false, Bool.false_eq_true]
    · exact List.Sublist.cons c (ih (step c s).1)
    · exact List.Sublist.cons₂ c (ih (step c s).1)

lemma switchInner_call_preserves {T : Type} (v : T) :
    ∀ (cs : List Nat) (s : SwitchState T),
    (callbacksCall (switchInnerCb v) cs s).2.curId = s.curId ∧
    (callbacksCall (switchInnerCb v) cs s).2.regs = s.regs ∧
    (callbacksCall (switchInnerCb v) cs s).2.outAlive = s.outAlive ∧
    (callbacksCall (switchInnerCb v) cs s).2.outerKept = s.outerKept := by
  intro cs
  induction cs with
  | nil => intro s; exact ⟨rfl, rfl, rfl, rfl⟩
  | cons i cs ih =>
    intro s
    have hstep :
        (switchInnerCb v i s).1.curId = s.curId ∧
        (switchInnerCb v i s).1.regs = s.regs ∧
        (switchInnerCb v i s).1.outAlive = s.outAlive ∧
        (switchInnerCb v i s).1.outerKept = s.outerKept := by
      simp only [switchInnerCb, with_weak]
      split_ifs <;> simp
    have h2 := ih (switchInnerCb v i s).1
    exact ⟨h2.1.trans hstep.1, h2.2.1.trans hstep.2.1,
      h2.2.2.1.trans hstep.2.2.1, h2.2.2.2.trans hstep.2.2.2⟩

lemma switchInner_call_stale {T : Type} (v : T) :
    ∀ (cs : List Nat) (s : SwitchState T), (∀ i ∈ cs, i ≠ s.curId) →
    callbacksCall (switchInnerCb v) cs s = ([], s) := by
  intro cs
  induction cs with
  | nil => intro s h; rfl
  | cons i cs ih =>
    intro s h
    have hi : i ≠ s.curId := h i (by simp)
    have hrest := ih s (fun j hj => h j (by simp [hj]))
    simp [callbacksCall, switchInnerCb, hi, hrest]

lemma swInv_init {T : Type} : SwInv (initSwitch T) := by
  refine ⟨?_, ?_, ?_⟩ <;> simp [initSwitch, SwInv]

lemma fireOuter_notKept {T : Type} (s : SwitchState T) (j : Nat)
    (hok : s.outerKept = false) : fireOuter s j = s := by
  unfold fireOuter
  rw [hok]
  rfl

lemma fireOuter_deadOut_fields {T : Type} (s : SwitchState T) (j : Nat)
    (hok : s.outerKept = true) (hoa : s.outAlive = false) :
    (fireOuter s j).curId = s.curId ∧
    (fireOuter s j).regs = s.regs ∧
    (fireOuter s j).log = s.log := by
  unfold fireOuter switchOuterCb
  rw [hok, hoa]
  exact ⟨rfl, rfl, rfl⟩

lemma fireOuter_live_curId {T : Type} (s : SwitchState T) (j : Nat)
    (hok : s.outerKept = true) (hoa : s.outAlive = true) :
    (fireOuter s j).curId = s.curId + 1 := by
  unfold fireOuter switchOuterCb
  rw [hok, hoa]
  rfl

lemma fireOuter_live_regs_at {T : Type} (s : SwitchState T) (j : Nat)
    (hok : s.outerKept = true) (hoa : s.outAlive = true) (k : Nat) :
    (fireOuter s j).regs k =
      if k = j then s.regs j ++ [s.curId + 1] else s.regs k := by
  unfold fireOuter switchOuterCb
  rw [hok, hoa]
  rfl

lemma fireInner_curId {T : Type} (s : SwitchState T) (j : Nat) (v : T) :
    (fireInner s j v).curId
      = (callbacksCall (switchInnerCb v) (s.regs j) s).2.curId := rfl

lemma fireInner_log {T : Type} (s : SwitchState T) (j : Nat) (v : T) :
    (fireInner s j v).log
      = (callbacksCall (switchInnerCb v) (s.regs j) s).2.log := rfl

lemma fireInner_regs_at {T : Type} (s : SwitchState T) (j : Nat) (v : T)
    (k : Nat) :
    (fireInner s j v).regs k =
      if k = j then (callbacksCall (switchInnerCb v) (s.regs j) s).1
      else (callbacksCall (switchInnerCb v) (s.regs j) s).2.regs k := rfl

lemma swInv_fireOuter {T : Type} {s : SwitchState T} (h : SwInv s)
    (j : Nat) : SwInv (fireOuter s j) := by
  obtain ⟨hb, hn, hc⟩ := h
  cases hok : s.outerKept
  · rw [fireOuter_notKept s j hok]
    exact ⟨hb, hn, hc⟩
  · cases hoa : s.outAlive
    · obtain ⟨h1, h2, h3⟩ := fireOuter_deadOut_fields s j hok hoa
      refine ⟨?_, ?_, ?_⟩
      · intro k i hi
        rw [h2] at hi
        rw [h1]
        exact hb k i hi
      · intro k
        rw [h2]
        exact hn k
      · intro k k2 i hik hik2
        rw [h2] at hik hik2
        exact hc k k2 i hik hik2
    · have hcur := fireOuter_live_curId s j hok hoa
      have hreg := fireOuter_live_regs_at s j hok hoa
      refine ⟨?_, ?_, ?_⟩
      · intro k i hi
        rw [hreg k] at hi
        rw [hcur]
        by_cases hkj : k = j
        · rw [if_pos hkj] at hi
          rcases List.mem_append.mp hi with h1 | h1
          · exact Nat.le_succ_of_le (hb j i h1)
          · simp at h1
            omega
        · rw [if_neg hkj] at hi
          exact Nat.le_succ_of_le (hb k i hi)
      · intro k
        rw [hreg k]
        by_cases hkj : k = j
        · rw [if_pos hkj]
          refine (hn j).append (List.nodup_singleton _) ?_
          intro x hx hx2
          simp at hx2
          have := hb j x hx
          omega
        · rw [if_neg hkj]
          exact hn k
      · intro k k2 i hik hik2
        rw [hreg k] at hik
        rw [hreg k2] at hik2
        by_cases hic : i = s.curId + 1
        · subst hic
          by_cases hkj : k = j
          · by_cases hkj2 : k2 = j
            · rw [hkj, hkj2]
            · exfalso
              rw [if_neg hkj2] at hik2
              have := hb k2 _ hik2
              omega
          · exfalso
            rw [if_neg hkj] at hik
            have := hb k _ hik
            omega
        · have hik3 : i ∈ s.regs k := by
            by_cases hkj : k = j
            · rw [if_pos hkj] at hik
              rcases List.mem_append.mp hik with h1 | h1
              · rw [hkj]
                exact h1
              · simp at h1
                omega
            · rwa [if_neg hkj] at hik
          have hik4 : i ∈ s.regs k2 := by
            by_cases hkj : k2 = j
            · rw [if_pos hkj] at hik2
              rcases List.mem_append.mp hik2 with h1 | h1
              · rw [hkj]
                exact h1
              · simp at h1
                omega
            · rwa [if_neg hkj] at hik2
          exact hc k k2 i hik3 hik4

lemma swInv_fireInner {T : Type} {s : SwitchState T} (h : SwInv s)
    (j : Nat) (v : T) : SwInv (fireInner s j v) := by
  obtain ⟨hb, hn, hc⟩ := h
  have hpres := switchInner_call_preserves v (s.regs j) s
  have hsub := callbacksCall_sublist (switchInnerCb v) (s.regs j) s
  refine ⟨?_, ?_, ?_⟩
  · intro k i hi
    rw [fireInner_regs_at s j v k] at hi
    rw [fireInner_curId s j v, hpres.1]
    by_cases hkj : k = j
    · rw [if_pos hkj] at hi
      exact hb j i (hsub.subset hi)
    · rw [if_neg hkj, hpres.2.1] at hi
      exact hb k i hi
  · intro k
    rw [fireInner_regs_at s j v k]
    by_cases hkj : k = j
    · rw [if_pos hkj]
      exact hsub.nodup (hn j)
    · rw [if_neg hkj, hpres.2.1]
      exact hn k
  · intro k k2 i hik hik2
    rw [fireInner_regs_at s j v k] at hik
    rw [fireInner_regs_at s j v k2] at hik2
    have hik3 : i ∈ s.regs k := by
      by_cases hkj : k = j
      · rw [if_pos hkj] at hik
        rw [hkj]
        exact hsub.subset hik
      · rwa [if_neg hkj, hpres.2.1] at hik
    have hik4 : i ∈ s.regs k2 := by
      by_cases hkj : k2 = j
      · rw [if_pos hkj] at hik2
        rw [hkj]
        exact hsub.subset hik2
      · rwa [if_neg hkj, hpres.2.1] at hik2
    exact hc k k2 i hik3 hik4

lemma swInv_run {T : Type} (evs : List (SwEv T)) :
    ∀ s : SwitchState T, SwInv s → SwInv (swRun s evs) := by
  induction evs with
  | nil => intro s h; exact h
  | cons ev rest ih =>
    intro s h
    cases ev with
    | outer j => exact ih _ (swInv_fireOuter h j)
    | inner j v => exact ih _ (swInv_fireInner h j v)

/-- C1: for `switch`, after the outer stream delivers inner streams `s1`
then `s2` (before either fires), an event then fired on `s1` is not
forwarded to the output and that superseded subscription removes itself
(its closure returns `false`) without forwarding, while events fired on
`s2` are forwarded; before `s2` arrived, `s1` still forwarded.  In
general, after any event history at most one registered inner
subscription carries the current generation id (so at most one inner
stream — the most recently delivered one — has its events forwarded), and
firing a wholly superseded inner stream forwards nothing and empties its
registry of switch subscriptions. -/
theorem switch_latest_only {T : Type} (v w : T) :
    ((fireInner (fireOuter (initSwitch T) 1) 1 v).log = [v]) ∧
    ((fireInner (fireOuter (fireOuter (initSwitch T) 1) 2) 1 v).log = []) ∧
    ((fireInner (fireOuter (fireOuter (initSwitch T) 1) 2) 1 v).regs 1
      = []) ∧
    ((fireInner (fireOuter (fireOuter (initSwitch T) 1) 2) 2 w).log
      = [w]) ∧
    ((fireInner (fireOuter (fireOuter (initSwitch T) 1) 2) 2 w).regs 2
      = [2]) ∧
    (∀ (evs : List (SwEv T)) (j k : Nat),
      (swRun (initSwitch T) evs).curId ∈ (swRun (initSwitch T) evs).regs j →
      (swRun (initSwitch T) evs).curId ∈ (swRun (initSwitch T) evs).regs k →
      j = k) ∧
    (∀ (evs : List (SwEv T)) (j : Nat),
      ((swRun (initSwitch T) evs).regs j).count
        (swRun (initSwitch T) evs).curId ≤ 1) ∧
    (∀ (evs : List (SwEv T)) (j : Nat) (u : T),
      (∀ i ∈ (swRun (initSwitch T) evs).regs j,
        i ≠ (swRun (initSwitch T) evs).curId) →
      (fireInner (swRun (initSwitch T) evs) j u).log
        = (swRun (initSwitch T) evs).log ∧
      (fireInner (swRun (initSwitch T) evs) j u).regs j = []) := by
  refine ⟨rfl, rfl, rfl, rfl, rfl, ?_, ?_, ?_⟩
  · intro evs j k hj hk
    exact (swInv_run evs (initSwitch T) swInv_init).2.2 j k _ hj hk
  · intro evs j
    exact List.nodup_iff_count_le_one.mp
      ((swInv_run evs (initSwitch T) swInv_init).2.1 j) _
  · intro evs j u h
    have hc := switchInner_call_stale u
      ((swRun (initSwitch T) evs).regs j) (swRun (initSwitch T) evs) h
    constructor
    · rw [fireInner_log, hc]
    · rw [fireInner_regs_at, hc]
      simp

/-- Concrete instantiation discharging the hypotheses of the C1 theorem:
after the history `[outer 1, outer 2]` the current generation id is
registered only on stream 2, and firing the superseded stream 1 forwards
nothing and empties its registry. -/
theorem switch_latest_only_witness :
    (2 : Nat) = 2 ∧
    ((fireInner (swRun (initSwitch Nat) [SwEv.outer 1, SwEv.outer 2]) 1 5).log
      = (swRun (initSwitch Nat) [SwEv.outer 1, SwEv.outer 2]).log ∧
    (fireInner (swRun (initSwitch Nat) [SwEv.outer 1, SwEv.outer 2]) 1 5).regs 1
      = []) :=
  ⟨(switch_latest_only (5 : Nat) 7).2.2.2.2.2.1 [SwEv.outer 1, SwEv.outer 2]
      2 2 (by decide) (by decide),
    (switch_latest_only (5 : Nat) 7).2.2.2.2.2.2.2 [SwEv.outer 1, SwEv.outer 2]
      1 5 (by decide)⟩
